import Mathlib

/-!
StreamScribe Enhanced — shallow embedding and verification.

This file embeds the behaviour of `src/streamscribe_enhanced.py`
(`ChunkedStreamScribe`) in Lean 4 and proves properties of the embedding.

Modelling conventions:
* Python integers are `Int` (durations and offsets are `int` seconds coming
  from the CLI and from the `duration` field of the resolver).
* The float arithmetic in `_seconds_to_srt_time` is embedded over `ℚ` with
  the Python operators `%` (`pymod`), `//` (floor) and `int(...)` (truncation toward zero).
* The `while` loop of `create_audio_chunks` is embedded with explicit fuel:
  the loop function returns the chunks produced within `fuel` iterations
  together with a flag that is `true` exactly when the loop has exited
  normally (reached `current_position >= total_duration`) within that fuel.
* External collaborators (the speech model, FFmpeg, the resolver) are opaque:
  their outputs are parameters of the embedded functions.  The error-free
  path is modelled (FFmpeg succeeds and returns non-empty data, no
  interruption), matching the runs the claims quantify over; interruption is
  modelled separately through the signal-handler state transition.
-/

namespace StreamScribe

/-- A chunk record as yielded by `create_audio_chunks`
(a dictionary with keys data, start_time, duration and chunk_number);
the raw PCM bytes are opaque and not carried. -/
structure AudioChunk where
  start_time : Int
  duration : Int
  chunk_number : Int
deriving Repr, DecidableEq

/-- The `while current_position < self.total_duration` loop of
`create_audio_chunks`, on the error-free, uninterrupted path
(`is_running` stays true, FFmpeg succeeds with non-empty data).
Each iteration computes `actual_duration = min(chunk_size, total_duration -
current_position)`, yields the chunk, then advances
`current_position += step_size` and increments `chunk_number`.
Result: chunks produced within `fuel` iterations, and `true` iff the loop
exited (reached `current_position >= D`) within that fuel. -/
def create_audio_chunks_loop (D L step : Int) : Nat → Int → Int → List AudioChunk × Bool
  | 0, _, _ => ([], false)
  | fuel + 1, pos, n =>
    if pos < D then
      let actual := min L (D - pos)
      let rest := create_audio_chunks_loop D L step fuel (pos + step) (n + 1)
      (⟨pos, actual, n⟩ :: rest.1, rest.2)
    else
      ([], true)

/-- Embeds `create_audio_chunks` for a run with total duration `D`, chunk length `L`
and overlap `O`: `step_size = chunk_size - overlap_size`, starting from
`current_position = 0`, `chunk_number = 0`. -/
def create_audio_chunks (D L O : Int) (fuel : Nat) : List AudioChunk × Bool :=
  create_audio_chunks_loop D L (L - O) fuel 0 0

lemma create_audio_chunks_loop_get (D L step : Int) (hstep : 0 < step) :
    ∀ (fuel : Nat) (pos n : Int) (cs : List AudioChunk),
      create_audio_chunks_loop D L step fuel pos n = (cs, true) →
      (∀ i : Nat, (hi : i < cs.length) →
        cs.get ⟨i, hi⟩ = ⟨pos + i * step, min L (D - (pos + i * step)), n + i⟩) ∧
      (∀ i : Nat, pos + i * step < D ↔ i < cs.length) := by
  intro fuel
  induction fuel with
  | zero => intro pos n cs h; simp [create_audio_chunks_loop] at h
  | succ fuel ih =>
    intro pos n cs h
    by_cases hpos : pos < D
    · simp only [create_audio_chunks_loop, if_pos hpos] at h
      obtain ⟨h1, h2⟩ := Prod.mk.injEq _ _ _ _ ▸ h
      set rest := create_audio_chunks_loop D L step fuel (pos + step) (n + 1) with hrest
      have htail : create_audio_chunks_loop D L step fuel (pos + step) (n + 1)
          = (rest.1, true) := by
        rw [← hrest, ← h2]
      obtain ⟨ihget, ihiff⟩ := ih (pos + step) (n + 1) rest.1 htail
      constructor
      · intro i hi
        subst h1
        cases i with
        | zero => simp
        | succ j =>
          simp only [List.length_cons] at hi
          have hj : j < rest.1.length := Nat.lt_of_succ_lt_succ hi
          have := ihget j hj
          simp only [List.get_cons_succ]
          rw [this]
          congr 1 <;> push_cast <;> ring_nf
      · intro i
        subst h1
        cases i with
        | zero =>
          simp only [List.length_cons]
          constructor
          · intro _; exact Nat.succ_pos _
          · intro _; simpa using hpos
        | succ j =>
          have := ihiff j
          simp only [List.length_cons]
          constructor
          · intro hlt
            apply Nat.succ_lt_succ
            apply this.mp
            have : pos + (↑(j + 1) : Int) * step = pos + step + (↑j : Int) * step := by
              push_cast; ring
            linarith [this ▸ hlt]
          · intro hlt
            have hj := this.mpr (Nat.lt_of_succ_lt_succ hlt)
            have : pos + (↑(j + 1) : Int) * step = pos + step + (↑j : Int) * step := by
              push_cast; ring
            linarith [hj]
    · simp only [create_audio_chunks_loop, if_neg hpos] at h
      obtain ⟨h1, _⟩ := Prod.mk.injEq _ _ _ _ ▸ h
      subst h1
      constructor
      · intro i hi; simp at hi
      · intro i
        simp only [List.length_nil]
        constructor
        · intro hlt
          exfalso
          have : 0 ≤ (i : Int) * step := by positivity
          push_neg at hpos
          linarith
        · intro hlt; exact absurd hlt (Nat.not_lt_zero i)

lemma create_audio_chunks_loop_terminates (D L step : Int) (hstep : 0 < step) :
    ∀ (k : Nat) (pos n : Int), (D - pos).toNat ≤ k →
      ∃ fuel cs, create_audio_chunks_loop D L step fuel pos n = (cs, true) := by
  intro k
  induction k with
  | zero =>
    intro pos n hk
    refine ⟨1, [], ?_⟩
    have hpos : ¬ pos < D := by omega
    simp [create_audio_chunks_loop, hpos]
  | succ k ih =>
    intro pos n hk
    by_cases hpos : pos < D
    · obtain ⟨fuel, cs, hcs⟩ := ih (pos + step) (n + 1) (by omega)
      refine ⟨fuel + 1, ⟨pos, min L (D - pos), n⟩ :: cs, ?_⟩
      simp [create_audio_chunks_loop, hpos, hcs]
    · refine ⟨1, [], ?_⟩
      simp [create_audio_chunks_loop, hpos]

lemma create_audio_chunks_loop_end_le (D L step : Int) :
    ∀ (fuel : Nat) (pos n : Int) (c : AudioChunk),
      c ∈ (create_audio_chunks_loop D L step fuel pos n).1 →
      c.start_time + c.duration ≤ D ∧ c.start_time < D := by
  intro fuel
  induction fuel with
  | zero => intro pos n c hc; simp [create_audio_chunks_loop] at hc
  | succ fuel ih =>
    intro pos n c hc
    by_cases hpos : pos < D
    · simp only [create_audio_chunks_loop, if_pos hpos, List.mem_cons] at hc
      rcases hc with hc | hc
      · subst hc
        constructor
        · simp only []
          omega
        · simpa using hpos
      · exact ih (pos + step) (n + 1) c hc
    · simp [create_audio_chunks_loop, if_neg hpos] at hc

lemma create_audio_chunks_loop_stuck (D L step : Int) (hstep : step ≤ 0) :
    ∀ (fuel : Nat) (pos n : Int), pos < D →
      (create_audio_chunks_loop D L step fuel pos n).2 = false ∧
      ∀ c ∈ (create_audio_chunks_loop D L step fuel pos n).1, c.start_time ≤ pos := by
  intro fuel
  induction fuel with
  | zero => intro pos n _; simp [create_audio_chunks_loop]
  | succ fuel ih =>
    intro pos n hpos
    have hpos' : pos + step < D := by omega
    obtain ⟨ihflag, ihmem⟩ := ih (pos + step) (n + 1) hpos'
    constructor
    · simp only [create_audio_chunks_loop, if_pos hpos]
      exact ihflag
    · intro c hc
      simp only [create_audio_chunks_loop, if_pos hpos, List.mem_cons] at hc
      rcases hc with hc | hc
      · subst hc; simp
      · have := ihmem c hc; omega

/-- Claim C1. With chunk length `L` strictly greater than overlap `O`, the chunk
generator terminates, chunk `i` starts at `i*(L-O)`, ends at
`min (i*(L-O)+L) D` and carries sequence index `i`; consecutive start offsets
increase by exactly `L-O`; and chunk `i` is generated exactly when its start
offset `i*(L-O)` is still below `D` (the loop stops as soon as the start
offset reaches `D`). -/
theorem create_audio_chunks_correct (D L O : Int) (hstep : O < L) :
    ∃ (fuel : Nat) (cs : List AudioChunk),
      create_audio_chunks D L O fuel = (cs, true) ∧
      (∀ i : Nat, (hi : i < cs.length) →
        (cs.get ⟨i, hi⟩).start_time = (i : Int) * (L - O) ∧
        (cs.get ⟨i, hi⟩).start_time + (cs.get ⟨i, hi⟩).duration
          = min ((i : Int) * (L - O) + L) D ∧
        (cs.get ⟨i, hi⟩).chunk_number = (i : Int)) ∧
      (∀ i : Nat, (hi : i + 1 < cs.length) →
        (cs.get ⟨i + 1, hi⟩).start_time
          - (cs.get ⟨i, Nat.lt_of_succ_lt hi⟩).start_time = L - O) ∧
      (∀ i : Nat, (i : Int) * (L - O) < D ↔ i < cs.length) := by
  have hstep' : 0 < L - O := by omega
  obtain ⟨fuel, cs, hcs⟩ :=
    create_audio_chunks_loop_terminates D L (L - O) hstep' (D - 0).toNat 0 0 le_rfl
  obtain ⟨hget, hiff⟩ := create_audio_chunks_loop_get D L (L - O) hstep' fuel 0 0 cs hcs
  refine ⟨fuel, cs, hcs, ?_, ?_, ?_⟩
  · intro i hi
    have h := hget i hi
    rw [h]
    refine ⟨by simp, ?_, by simp⟩
    simp only []
    omega
  · intro i hi
    have h1 := hget (i + 1) hi
    have h2 := hget i (Nat.lt_of_succ_lt hi)
    rw [h1, h2]
    simp only []
    push_cast
    ring
  · intro i
    have := hiff i
    simpa using this

/-- Witness for C1 at `D = 10`, `L = 4`, `O = 1`. -/
theorem create_audio_chunks_correct_witness :
    (1 : Int) < 4 ∧
    ∃ (fuel : Nat) (cs : List AudioChunk),
      create_audio_chunks 10 4 1 fuel = (cs, true) ∧
      (∀ i : Nat, (hi : i < cs.length) →
        (cs.get ⟨i, hi⟩).start_time = (i : Int) * (4 - 1) ∧
        (cs.get ⟨i, hi⟩).start_time + (cs.get ⟨i, hi⟩).duration
          = min ((i : Int) * (4 - 1) + 4) 10 ∧
        (cs.get ⟨i, hi⟩).chunk_number = (i : Int)) ∧
      (∀ i : Nat, (hi : i + 1 < cs.length) →
        (cs.get ⟨i + 1, hi⟩).start_time
          - (cs.get ⟨i, Nat.lt_of_succ_lt hi⟩).start_time = 4 - 1) ∧
      (∀ i : Nat, (i : Int) * (4 - 1) < 10 ↔ i < cs.length) :=
  ⟨by norm_num, create_audio_chunks_correct 10 4 1 (by norm_num)⟩

/-- Claim C5. Every chunk the generator yields (for any parameters and any
amount of fuel, terminating or not) has end offset
`start_time + duration ≤ D`: no chunk extends past the total duration. -/
theorem chunk_end_le_total_duration (D L O : Int) (fuel : Nat) (c : AudioChunk)
    (hc : c ∈ (create_audio_chunks D L O fuel).1) :
    c.start_time + c.duration ≤ D :=
  (create_audio_chunks_loop_end_le D L (L - O) fuel 0 0 c hc).1

/-- Witness for C5: the last chunk of the `D = 10`, `L = 4`, `O = 1` run ends
at `10 ≤ 10`. -/
theorem chunk_end_le_total_duration_witness :
    (⟨9, 1, 3⟩ : AudioChunk) ∈ (create_audio_chunks 10 4 1 5).1 ∧
    (9 : Int) + 1 ≤ 10 :=
  ⟨by decide, chunk_end_le_total_duration 10 4 1 5 ⟨9, 1, 3⟩ (by decide)⟩

/-- Claim C9. Termination of the generator rests on the unvalidated precondition
`O < L`: when the step size `L - O` is not positive and `0 < D`, no amount of
fuel makes the loop exit (the start offset never advances toward `D`; every
yielded chunk still starts at offset `≤ 0`). -/
theorem create_audio_chunks_diverges (D L O : Int) (hLO : L ≤ O) (hD : 0 < D)
    (fuel : Nat) :
    (create_audio_chunks D L O fuel).2 = false ∧
    ∀ c ∈ (create_audio_chunks D L O fuel).1, c.start_time ≤ 0 :=
  create_audio_chunks_loop_stuck D L (L - O) (by omega) fuel 0 0 hD

/-- Witness for C9 at `D = 10`, `L = 5`, `O = 5`, `fuel = 3`: the loop has not
exited after 3 iterations. -/
theorem create_audio_chunks_diverges_witness :
    (create_audio_chunks 10 5 5 3).2 = false :=
  (create_audio_chunks_diverges 10 5 5 (by norm_num) (by norm_num) 3).1

/-! ## Transcription and the transcript sequence -/

/-- Python `str.strip()` whitespace, for the characters relevant here
(ASCII whitespace: space, tab, newline, carriage return, vertical tab,
form feed). -/
def isPyWhitespace (c : Char) : Bool :=
  c = ' ' || c = '\t' || c = '\n' || c = '\x0d' || c = '\x0b' || c = '\x0c'

/-- Python `s.strip()`: remove leading and trailing whitespace. -/
def pyStrip (s : String) : String :=
  String.mk ((((s.data.dropWhile isPyWhitespace).reverse).dropWhile
    isPyWhitespace).reverse)

/-- A `TranscriptSegment`, the dictionary built by `transcribe_audio_chunk`.
The wall-clock `timestamp` field (`datetime.now()`) is outside the model. -/
structure TranscriptSegment where
  text : String
  start_time : Int
  end_time : Int
  duration : Int
  chunk_number : Int
  language : String
deriving Repr, DecidableEq

/-- Embeds `transcribe_audio_chunk` on the non-exceptional path.  The Whisper model
is opaque: its recognized text and detected language for this chunk are the
parameters `whisperText`, `whisperLang`.  The code strips the text and
returns `None` when the result is empty (`if not transcript: return None`),
else the segment with `end_time = start_time + duration`. -/
def transcribe_audio_chunk (whisperText whisperLang : String)
    (chunk : AudioChunk) : Option TranscriptSegment :=
  let transcript := pyStrip whisperText
  if transcript = "" then
    none
  else
    some { text := transcript
           start_time := chunk.start_time
           end_time := chunk.start_time + chunk.duration
           duration := chunk.duration
           chunk_number := chunk.chunk_number
           language := whisperLang }

/-- Embeds `save_transcript`: `self.transcripts.append(transcript)` — appends the new
segment at the end of the transcript list of the run.  (The live console/text-file
output is I/O and not carried.) -/
def save_transcript (transcripts : List TranscriptSegment)
    (t : TranscriptSegment) : List TranscriptSegment :=
  transcripts ++ [t]

/-- The per-chunk body of the processing loop of `run`
(`for chunk_data in self.create_audio_chunks(...)`), on the uninterrupted
path: transcribe the chunk and, only `if transcript:`, save it.  `recognize`
is the opaque speech model, giving recognized text and language per chunk. -/
def run_loop (recognize : AudioChunk → String × String)
    (transcripts : List TranscriptSegment) :
    List AudioChunk → List TranscriptSegment
  | [] => transcripts
  | chunk :: rest =>
    match transcribe_audio_chunk (recognize chunk).1 (recognize chunk).2 chunk with
    | some t => run_loop recognize (save_transcript transcripts t) rest
    | none => run_loop recognize transcripts rest

/-- Claim C3. A chunk whose recognized text is empty after stripping whitespace
yields no result from `transcribe_audio_chunk`, and processing it leaves the
transcript sequence unchanged: no segment is appended. -/
theorem empty_transcription_dropped (whisperText whisperLang : String)
    (chunk : AudioChunk) (hempty : pyStrip whisperText = "")
    (recognize : AudioChunk → String × String)
    (transcripts : List TranscriptSegment) (rest : List AudioChunk)
    (hrec : recognize chunk = (whisperText, whisperLang)) :
    transcribe_audio_chunk whisperText whisperLang chunk = none ∧
    run_loop recognize transcripts (chunk :: rest)
      = run_loop recognize transcripts rest := by
  have hnone : transcribe_audio_chunk whisperText whisperLang chunk = none := by
    simp [transcribe_audio_chunk, hempty]
  refine ⟨hnone, ?_⟩
  simp [run_loop, hrec, hnone]

/-- Witness for C3: recognized text `"  \n "`, which strips to empty. -/
theorem empty_transcription_dropped_witness :
    pyStrip "  \n " = "" ∧
    (fun _ : AudioChunk => ("  \n ", "en")) ⟨0, 30, 0⟩ = ("  \n ", "en") ∧
    transcribe_audio_chunk "  \n " "en" ⟨0, 30, 0⟩ = none ∧
    run_loop (fun _ => ("  \n ", "en")) [] [⟨0, 30, 0⟩]
      = run_loop (fun _ => ("  \n ", "en")) [] [] :=
  ⟨by decide, rfl,
    empty_transcription_dropped "  \n " "en" ⟨0, 30, 0⟩ (by decide)
      (fun _ => ("  \n ", "en")) [] [] rfl⟩

/-- Claim C8. The transcript sequence is append-only: processing any chunk list
from any prior transcript state yields exactly the prior sequence, unchanged
and in order, followed by the segments newly created during processing — no
existing segment is mutated, removed or reordered, and each save appends one
segment at the end. -/
theorem transcripts_append_only (recognize : AudioChunk → String × String)
    (transcripts : List TranscriptSegment) (chunks : List AudioChunk) :
    run_loop recognize transcripts chunks
      = transcripts ++ run_loop recognize [] chunks ∧
    ∀ (ts : List TranscriptSegment) (t : TranscriptSegment),
      save_transcript ts t = ts ++ [t] := by
  constructor
  · induction chunks generalizing transcripts with
    | nil => simp [run_loop]
    | cons chunk rest ih =>
      cases htr : transcribe_audio_chunk (recognize chunk).1 (recognize chunk).2 chunk with
      | none =>
        simp only [run_loop, htr]
        exact ih transcripts
      | some t =>
        simp only [run_loop, htr]
        rw [ih (save_transcript transcripts t), ih (save_transcript [] t)]
        simp [save_transcript]
  · intro ts t; rfl

/-! ## Interruption: `_signal_handler` and `_save_partial_results` -/

/-- The mutable per-run state of `ChunkedStreamScribe` relevant to
interruption (`RunState` of the spec). -/
structure RunState where
  transcripts : List TranscriptSegment
  processed_duration : Int
  total_duration : Int
  is_running : Bool
  is_interrupted : Bool
deriving Repr, DecidableEq

/-- The contents of the `<output>.resume.json` snapshot
(`resume_data` in `_save_partial_results`; the wall-clock
`interrupted_at` field is outside the model). -/
structure ResumeData where
  transcripts : List TranscriptSegment
  processed_duration : Int
  total_duration : Int
deriving Repr, DecidableEq

/-- Embeds `_save_partial_results`: `if not self.transcripts: return` — when the
transcript list is empty nothing is written and no snapshot file is created;
otherwise the resume snapshot holds the accumulated transcripts and the
current progress offsets.  `none` models "no file written". -/
def save_resume_snapshot (s : RunState) : Option ResumeData :=
  if s.transcripts = [] then
    none
  else
    some ⟨s.transcripts, s.processed_duration, s.total_duration⟩

/-- Embeds `_signal_handler`: sets `is_interrupted = True` and `is_running = False`
(stopping chunk production and consumption), calls `_save_partial_results`,
then `sys.exit(0)`.  Returns the updated state, the snapshot written (if
any), and the process exit status. -/
def signal_handler (s : RunState) : RunState × Option ResumeData × Int :=
  let s' := { s with is_interrupted := true, is_running := false }
  (s', save_resume_snapshot s', 0)

/-- Claim C2, counterexample. Interrupting with `N = 0` recorded segments does
*not* write a resume snapshot: `_save_partial_results` returns without
creating the file when the transcript list is empty, contradicting the claim
that a snapshot containing exactly those `N` segments is written for every
`N` including `N = 0`. -/
theorem signal_handler_empty_no_snapshot :
    (signal_handler ⟨[], 25, 100, true, false⟩).2.1 = none := by
  decide

/-- Claim C2, amended. On a termination signal the handler stops the run
(`is_running` cleared, `is_interrupted` set) and exits with success status 0;
whenever at least one segment has been recorded (`N ≥ 1`) the resume snapshot
is written and contains exactly the accumulated segments together with the
current processed-duration offset; with `N = 0` recorded segments no snapshot
file is written. -/
theorem signal_handler_contract (s : RunState) :
    (signal_handler s).1.is_running = false ∧
    (signal_handler s).1.is_interrupted = true ∧
    (signal_handler s).1.transcripts = s.transcripts ∧
    (signal_handler s).2.2 = 0 ∧
    (s.transcripts ≠ [] →
      (signal_handler s).2.1
        = some ⟨s.transcripts, s.processed_duration, s.total_duration⟩) ∧
    (s.transcripts = [] → (signal_handler s).2.1 = none) := by
  refine ⟨rfl, rfl, rfl, rfl, ?_, ?_⟩
  · intro h
    simp [signal_handler, save_resume_snapshot, h]
  · intro h
    simp [signal_handler, save_resume_snapshot, h]

/-- Witness for C2 (amended) at a state with one recorded segment. -/
theorem signal_handler_contract_witness :
    ([⟨"hello", 0, 30, 30, 0, "en"⟩] : List TranscriptSegment) ≠ [] ∧
    (signal_handler ⟨[⟨"hello", 0, 30, 30, 0, "en"⟩], 25, 100, true, false⟩).2.2 = 0 ∧
    (signal_handler ⟨[⟨"hello", 0, 30, 30, 0, "en"⟩], 25, 100, true, false⟩).2.1
      = some ⟨[⟨"hello", 0, 30, 30, 0, "en"⟩], 25, 100⟩ := by
  refine ⟨by decide, ?_, ?_⟩
  · exact (signal_handler_contract
      ⟨[⟨"hello", 0, 30, 30, 0, "en"⟩], 25, 100, true, false⟩).2.2.2.1
  · exact (signal_handler_contract
      ⟨[⟨"hello", 0, 30, 30, 0, "en"⟩], 25, 100, true, false⟩).2.2.2.2.1
      (by decide)

/-! ## Process exit status -/

/-- Outcome of the top-of-file dependency guard (`try: import ... except
ImportError: ... sys.exit(1)`). -/
inductive StartupResult where
  | depsOk
  | missingDependency (pkg : String)
deriving Repr, DecidableEq

/-- How the body of `run` ends, given that the dependencies loaded. -/
inductive RunEvent where
  /-- The processing loop finished and results were saved. -/
  | completed
  /-- A termination signal arrived; `_signal_handler` ends in `sys.exit(0)`. -/
  | interruptSignal
  /-- A setup exception (e.g. `extract_youtube_info` re-raises on an
  unreachable video); `run` catches every `Exception`, prints
  `"Enhanced StreamScribe failed"`, and returns, so `main` returns normally. -/
  | setupException (msg : String)
deriving Repr, DecidableEq

/-- Exit status contributed by `run` / `main`: `run` swallows every
exception in its `except Exception` arm, so the interpreter exits 0 in all
three cases. -/
def run_exit_code : RunEvent → Int
  | .completed => 0
  | .interruptSignal => 0
  | .setupException _ => 0

/-- Process exit status of `streamscribe_enhanced.py`: the dependency guard
exits with status 1 before anything else runs; otherwise the status is
whatever `run` / `main` produce. -/
def process_exit_code : StartupResult → RunEvent → Int
  | .missingDependency _, _ => 1
  | .depsOk, ev => run_exit_code ev

/-- Claim C4, counterexample. An unreachable video makes
`extract_youtube_info` raise, but `run` catches the exception and the
process exits with status 0 — not non-zero as the claim requires for this
unrecoverable setup failure. -/
theorem unreachable_video_exits_zero :
    process_exit_code .depsOk
      (.setupException "Failed to extract YouTube info") = 0 := by
  decide

/-- Claim C4, amended. The process exit status is zero on normal completion,
on interruption, and even when setup fails after imports (an unreachable
video is caught and swallowed by `run`); it is non-zero exactly when a
dependency is missing at import time, and then it is 1. -/
theorem process_exit_code_spec (st : StartupResult) (ev : RunEvent) :
    (process_exit_code st ev ≠ 0 ↔ ∃ pkg, st = .missingDependency pkg) ∧
    (∀ pkg, process_exit_code (.missingDependency pkg) ev = 1) := by
  constructor
  · cases st with
    | depsOk =>
      simp only [process_exit_code]
      cases ev <;> simp [run_exit_code]
    | missingDependency pkg =>
      simp [process_exit_code]
  · intro pkg
    rfl

/-! ## SRT timestamps (`_seconds_to_srt_time`)

The Python function computes over floats; it is embedded over `ℚ` (exact
arithmetic) with the Python operators made explicit: `x % y` is `pymod`,
`x // y` is `⌊x / y⌋`, and `int(...)` truncates toward zero (`pyint`). -/

/-- Python `x % y` on numbers: `x - y * ⌊x / y⌋` (sign follows `y`). -/
def pymod (x y : ℚ) : ℚ := x - y * ⌊x / y⌋

/-- Python `int(x)`: truncation toward zero. -/
def pyint (x : ℚ) : Int := if x < 0 then -⌊-x⌋ else ⌊x⌋

/-- Python `f"{n:0wd}"` for the non-negative values used here: left-pad the
decimal digits with zeros to width `w`. -/
def zfill (w : Nat) (n : Int) : String :=
  let s := toString n
  String.mk (List.replicate (w - s.length) '0') ++ s

/-- Embeds `_seconds_to_srt_time`: `hours = int(seconds // 3600)`,
`minutes = int((seconds % 3600) // 60)`, `secs = int(seconds % 60)`,
`millisecs = int((seconds % 1) * 1000)`, formatted
`"{hours:02d}:{minutes:02d}:{secs:02d},{millisecs:03d}"`. -/
def seconds_to_srt_time (seconds : ℚ) : String :=
  let hours : Int := pyint ((⌊seconds / 3600⌋ : Int) : ℚ)
  let minutes : Int := pyint ((⌊pymod seconds 3600 / 60⌋ : Int) : ℚ)
  let secs : Int := pyint (pymod seconds 60)
  let millisecs : Int := pyint (pymod seconds 1 * 1000)
  zfill 2 hours ++ ":" ++ zfill 2 minutes ++ ":" ++ zfill 2 secs ++ ","
    ++ zfill 3 millisecs

lemma pymod_eq_fract (x y : ℚ) (hy : y ≠ 0) :
    pymod x y = y * Int.fract (x / y) := by
  have hxy : y * (x / y) = x := by field_simp
  unfold pymod Int.fract
  rw [mul_sub, hxy]

lemma pymod_nonneg (x y : ℚ) (hy : 0 < y) : 0 ≤ pymod x y := by
  rw [pymod_eq_fract x y hy.ne']
  exact mul_nonneg hy.le (Int.fract_nonneg _)

lemma pymod_lt (x y : ℚ) (hy : 0 < y) : pymod x y < y := by
  rw [pymod_eq_fract x y hy.ne']
  calc y * Int.fract (x / y) < y * 1 :=
        mul_lt_mul_of_pos_left (Int.fract_lt_one _) hy
    _ = y := mul_one y

lemma pyint_intCast (m : Int) : pyint ((m : Int) : ℚ) = m := by
  unfold pyint
  split
  · rw [← Int.cast_neg, Int.floor_intCast, neg_neg]
  · rw [Int.floor_intCast]

lemma pyint_of_nonneg (x : ℚ) (h : 0 ≤ x) : pyint x = ⌊x⌋ := by
  unfold pyint
  rw [if_neg (not_lt.mpr h)]

/-- Claim C6. The function `_seconds_to_srt_time` maps 3725.4 seconds to `01:02:05,400`;
and for every non-negative offset it emits `HH:MM:SS,mmm` with zero-padded
non-negative hours, minutes in `[0,60)`, seconds in `[0,60)` and
milliseconds in `[0,1000)`. -/
theorem seconds_to_srt_time_spec :
    seconds_to_srt_time (37254 / 10) = "01:02:05,400" ∧
    ∀ s : ℚ, 0 ≤ s →
      ∃ h m sec ms : Int,
        0 ≤ h ∧ 0 ≤ m ∧ m < 60 ∧ 0 ≤ sec ∧ sec < 60 ∧ 0 ≤ ms ∧ ms < 1000 ∧
        seconds_to_srt_time s
          = zfill 2 h ++ ":" ++ zfill 2 m ++ ":" ++ zfill 2 sec ++ ","
            ++ zfill 3 ms := by
  constructor
  · have f1 : ⌊(37254 / 10 / 3600 : ℚ)⌋ = (1 : Int) := by norm_num
    have g1 : pymod (37254 / 10 : ℚ) 3600 = 627 / 5 := by
      unfold pymod; rw [f1]; norm_num
    have f2 : ⌊((627 / 5 : ℚ) / 60)⌋ = (2 : Int) := by norm_num
    have f3 : ⌊(37254 / 10 / 60 : ℚ)⌋ = (62 : Int) := by norm_num
    have g3 : pymod (37254 / 10 : ℚ) 60 = 27 / 5 := by
      unfold pymod; rw [f3]; norm_num
    have f4 : ⌊(37254 / 10 / 1 : ℚ)⌋ = (3725 : Int) := by norm_num
    have g4 : pymod (37254 / 10 : ℚ) 1 = 2 / 5 := by
      unfold pymod; rw [f4]; norm_num
    unfold seconds_to_srt_time
    rw [f1, g1, f2, g3, g4, pyint_intCast, pyint_intCast]
    rw [pyint_of_nonneg _ (by norm_num), pyint_of_nonneg _ (by norm_num)]
    norm_num
    decide
  · intro s hs
    refine ⟨⌊s / 3600⌋, ⌊pymod s 3600 / 60⌋, ⌊pymod s 60⌋, ⌊pymod s 1 * 1000⌋,
      ?_, ?_, ?_, ?_, ?_, ?_, ?_, ?_⟩
    · exact Int.floor_nonneg.mpr (div_nonneg hs (by norm_num))
    · exact Int.floor_nonneg.mpr
        (div_nonneg (pymod_nonneg s 3600 (by norm_num)) (by norm_num))
    · refine Int.floor_lt.mpr ?_
      rw [div_lt_iff₀ (by norm_num : (0:ℚ) < 60)]
      calc pymod s 3600 < 3600 := pymod_lt s 3600 (by norm_num)
        _ = (60 : ℚ) * 60 := by norm_num
        _ ≤ ((60 : Int) : ℚ) * 60 := by norm_num
    · exact Int.floor_nonneg.mpr (pymod_nonneg s 60 (by norm_num))
    · refine Int.floor_lt.mpr ?_
      calc pymod s 60 < 60 := pymod_lt s 60 (by norm_num)
        _ ≤ ((60 : Int) : ℚ) := by norm_num
    · exact Int.floor_nonneg.mpr
        (mul_nonneg (pymod_nonneg s 1 one_pos) (by norm_num))
    · refine Int.floor_lt.mpr ?_
      calc pymod s 1 * 1000 < 1 * 1000 := by
            exact mul_lt_mul_of_pos_right (pymod_lt s 1 one_pos) (by norm_num)
        _ ≤ ((1000 : Int) : ℚ) := by norm_num
    · show seconds_to_srt_time s = _
      unfold seconds_to_srt_time
      rw [pyint_intCast, pyint_intCast,
        pyint_of_nonneg _ (pymod_nonneg s 60 (by norm_num)),
        pyint_of_nonneg _ (mul_nonneg (pymod_nonneg s 1 one_pos) (by norm_num))]

/-- Witness for C6 at `s = 5`. -/
theorem seconds_to_srt_time_spec_witness :
    (0 : ℚ) ≤ 5 ∧
    ∃ h m sec ms : Int,
      0 ≤ h ∧ 0 ≤ m ∧ m < 60 ∧ 0 ≤ sec ∧ sec < 60 ∧ 0 ≤ ms ∧ ms < 1000 ∧
      seconds_to_srt_time 5
        = zfill 2 h ++ ":" ++ zfill 2 m ++ ":" ++ zfill 2 sec ++ ","
          ++ zfill 3 ms :=
  ⟨by norm_num, seconds_to_srt_time_spec.2 5 (by norm_num)⟩

/-! ## SRT file output (`save_final_results`) -/

/-- One SRT record as written by the loop body of `save_final_results`:
`f.write(f"{i}\n")`, `f.write(f"{start} --> {end}\n")`,
then the segment text followed by a blank line. -/
def srt_block (i : Nat) (t : TranscriptSegment) : String :=
  toString i ++ "\n"
    ++ seconds_to_srt_time ((t.start_time : Int) : ℚ) ++ " --> "
    ++ seconds_to_srt_time ((t.end_time : Int) : ℚ) ++ "\n"
    ++ t.text ++ "\n\n"

/-- The SRT part of `save_final_results`: `if not self.transcripts: return`
(no files written for an empty transcript list); otherwise
`for i, transcript in enumerate(self.transcripts, 1)` writes one block per
segment.  The result is the ordered list of blocks written to the `.srt`
file (the file content is their concatenation in order); `enumerate(_, 1)`
is embedded as a zip with `range`, index shifted by one. -/
def save_final_results_srt (ts : List TranscriptSegment) :
    Option (List String) :=
  if ts = [] then none
  else some (((List.range ts.length).zip ts).map
    (fun p => srt_block (p.1 + 1) p.2))

/-- Generic consecutive numbering: apply `f` to `n, n+1, n+2, ...` along a
list. -/
def numbered_map {α β : Type} (f : Nat → α → β) : Nat → List α → List β
  | _, [] => []
  | n, a :: rest => f n a :: numbered_map f (n + 1) rest

lemma numbered_map_eq_zip_range {α β : Type} (f : Nat → α → β) (l : List α) :
    ∀ n : Nat,
      ((List.range l.length).zip l).map (fun p => f (p.1 + n) p.2)
        = numbered_map f n l := by
  induction l with
  | nil => intro n; rfl
  | cons a rest ih =>
    intro n
    simp only [List.length_cons, List.range_succ_eq_map, List.zip_cons_cons,
      List.map_cons, numbered_map, Nat.zero_add]
    congr 1
    rw [List.zip_map_left, List.map_map, ← ih (n + 1)]
    apply List.map_congr_left
    intro p _
    simp only [Function.comp_apply, Prod.map_fst, Prod.map_snd, id_eq]
    have hpn : Nat.succ p.1 + n = p.1 + (n + 1) := by omega
    rw [hpn]

lemma numbered_map_length {α β : Type} (f : Nat → α → β) (l : List α) :
    ∀ n : Nat, (numbered_map f n l).length = l.length := by
  induction l with
  | nil => intro n; rfl
  | cons a rest ih =>
    intro n
    simp only [numbered_map, List.length_cons, ih]

lemma numbered_map_getD {α β : Type} (f : Nat → α → β) (l : List α) :
    ∀ (n i : Nat), (hi : i < l.length) → ∀ d : β,
      (numbered_map f n l).getD i d = f (n + i) (l.get ⟨i, hi⟩) := by
  induction l with
  | nil => intro n i hi d; simp at hi
  | cons a rest ih =>
    intro n i hi d
    cases i with
    | zero => rfl
    | succ j =>
      have hj : j < rest.length := Nat.lt_of_succ_lt_succ hi
      have hij : n + (j + 1) = n + 1 + j := by omega
      rw [hij]
      exact ih (n + 1) j hj d

/-- Stated from the spec words, for comparison with
`save_final_results_srt`: a standard SRT file is record after record in
segment order, records numbered consecutively starting from `n`. -/
def srt_records_from (n : Nat) (ts : List TranscriptSegment) : List String :=
  numbered_map srt_block n ts

/-- Claim C7. For a non-empty transcript sequence the SRT output is one block
per segment in sequence order; the block list equals the
consecutively-numbered records starting from 1 described by the spec, and
block `i` (zero-based) is the standard SRT record for segment `i` with
index line `i + 1`, timestamp line, and text followed by a blank line. -/
theorem srt_file_format (ts : List TranscriptSegment) (hne : ts ≠ []) :
    ∃ blocks : List String,
      save_final_results_srt ts = some blocks ∧
      blocks = srt_records_from 1 ts ∧
      blocks.length = ts.length ∧
      ∀ i : Nat, (hi : i < ts.length) →
        blocks.getD i "" = srt_block (i + 1) (ts.get ⟨i, hi⟩) := by
  refine ⟨srt_records_from 1 ts, ?_, rfl, ?_, ?_⟩
  · unfold save_final_results_srt
    rw [if_neg hne]
    unfold srt_records_from
    rw [numbered_map_eq_zip_range srt_block ts 1]
  · unfold srt_records_from
    exact numbered_map_length srt_block ts 1
  · intro i hi
    have h := numbered_map_getD srt_block ts 1 i hi ""
    rw [Nat.add_comm 1 i] at h
    unfold srt_records_from
    exact h

/-- Witness for C7 on a one-segment transcript list. -/
theorem srt_file_format_witness :
    ([⟨"hello", 0, 30, 30, 0, "en"⟩] : List TranscriptSegment) ≠ [] ∧
    ∃ blocks : List String,
      save_final_results_srt [⟨"hello", 0, 30, 30, 0, "en"⟩] = some blocks ∧
      blocks = srt_records_from 1 [⟨"hello", 0, 30, 30, 0, "en"⟩] ∧
      blocks.length
        = ([⟨"hello", 0, 30, 30, 0, "en"⟩] : List TranscriptSegment).length ∧
      ∀ i : Nat,
        (hi : i < ([⟨"hello", 0, 30, 30, 0, "en"⟩] :
            List TranscriptSegment).length) →
        ([⟨"hello", 0, 30, 30, 0, "en"⟩] : List TranscriptSegment).get ⟨i, hi⟩
            |> srt_block (i + 1) |> (blocks.getD i "" = ·) :=
  ⟨by decide, srt_file_format [⟨"hello", 0, 30, 30, 0, "en"⟩] (by decide)⟩

/-! ## Overlap attribution between consecutive segments -/

/-- Claim C10, counterexample. In the error-free run with total duration 52,
chunk length 30 and overlap 5, the chunks start at 0, 25 and 50 and the
chunk at 25 is truncated to end at 52; the second and third recorded
segments then overlap by `52 - 50 = 2`, not by the overlap `O = 5` as the
claim asserts for every pair of consecutive segments. -/
theorem segment_overlap_counterexample :
    (create_audio_chunks 52 30 5 10).2 = true ∧
    (run_loop (fun _ => ("hello", "en")) []
        (create_audio_chunks 52 30 5 10).1).length = 3 ∧
    ((run_loop (fun _ => ("hello", "en")) []
          (create_audio_chunks 52 30 5 10).1).getD 1
        ⟨"", 0, 0, 0, 0, ""⟩).end_time
      - ((run_loop (fun _ => ("hello", "en")) []
          (create_audio_chunks 52 30 5 10).1).getD 2
        ⟨"", 0, 0, 0, 0, ""⟩).start_time = 2 ∧
    (2 : Int) ≠ 5 := by
  decide

/-- Claim C10, amended. Every recorded segment has end time equal to its
start time plus the extracted chunk duration (the overlap is never
trimmed), and for consecutive chunks of a terminating error-free run the
end offset of the earlier chunk exceeds the start offset of the later one by
`min O (D - next start)`: exactly `O` whenever the earlier chunk is a full,
untruncated chunk (`start + L ≤ D`), possibly less when the earlier chunk
is truncated at the end of the stream; with `0 < O` the time ranges always
strictly overlap. -/
theorem segment_overlap_spec (D L O : Int) (hstep : O < L) (fuel : Nat)
    (cs : List AudioChunk) (hcs : create_audio_chunks D L O fuel = (cs, true)) :
    (∀ (text lang : String) (c : AudioChunk) (t : TranscriptSegment),
      transcribe_audio_chunk text lang c = some t →
      t.end_time = t.start_time + t.duration ∧ t.duration = c.duration) ∧
    (∀ i : Nat, (hi : i + 1 < cs.length) →
      ((cs.get ⟨i, Nat.lt_of_succ_lt hi⟩).start_time
          + (cs.get ⟨i, Nat.lt_of_succ_lt hi⟩).duration)
        - (cs.get ⟨i + 1, hi⟩).start_time
        = min O (D - (cs.get ⟨i + 1, hi⟩).start_time) ∧
      ((cs.get ⟨i, Nat.lt_of_succ_lt hi⟩).start_time + L ≤ D →
        ((cs.get ⟨i, Nat.lt_of_succ_lt hi⟩).start_time
            + (cs.get ⟨i, Nat.lt_of_succ_lt hi⟩).duration)
          - (cs.get ⟨i + 1, hi⟩).start_time = O) ∧
      (0 < O →
        (cs.get ⟨i + 1, hi⟩).start_time
          < (cs.get ⟨i, Nat.lt_of_succ_lt hi⟩).start_time
            + (cs.get ⟨i, Nat.lt_of_succ_lt hi⟩).duration)) := by
  have hstep' : 0 < L - O := by omega
  obtain ⟨hget, hiff⟩ :=
    create_audio_chunks_loop_get D L (L - O) hstep' fuel 0 0 cs hcs
  constructor
  · intro text lang c t ht
    simp only [transcribe_audio_chunk] at ht
    by_cases hempty : pyStrip text = ""
    · rw [if_pos hempty] at ht
      exact absurd ht (by simp)
    · rw [if_neg hempty] at ht
      rw [Option.some.injEq] at ht
      subst ht
      exact ⟨rfl, rfl⟩
  · intro i hi
    have h1 := hget i (Nat.lt_of_succ_lt hi)
    have h2 := hget (i + 1) hi
    have hb := (hiff (i + 1)).mpr hi
    rw [h1, h2]
    simp only []
    push_cast at hb ⊢
    have hexp : ((i : Int) + 1) * (L - O) = (i : Int) * (L - O) + (L - O) := by
      ring
    simp only [hexp] at hb ⊢
    set a := (i : Int) * (L - O) with ha
    refine ⟨by omega, by omega, by omega⟩

/-- Witness for C10 (amended) at `D = 52`, `L = 30`, `O = 5`. -/
theorem segment_overlap_spec_witness :
    (5 : Int) < 30 ∧
    create_audio_chunks 52 30 5 10
      = ([⟨0, 30, 0⟩, ⟨25, 27, 1⟩, ⟨50, 2, 2⟩], true) ∧
    ((∀ (text lang : String) (c : AudioChunk) (t : TranscriptSegment),
        transcribe_audio_chunk text lang c = some t →
        t.end_time = t.start_time + t.duration ∧ t.duration = c.duration) ∧
      (∀ i : Nat,
        (hi : i + 1 < ([⟨0, 30, 0⟩, ⟨25, 27, 1⟩, ⟨50, 2, 2⟩] :
            List AudioChunk).length) →
        ((([⟨0, 30, 0⟩, ⟨25, 27, 1⟩, ⟨50, 2, 2⟩] :
              List AudioChunk).get ⟨i, Nat.lt_of_succ_lt hi⟩).start_time
            + (([⟨0, 30, 0⟩, ⟨25, 27, 1⟩, ⟨50, 2, 2⟩] :
              List AudioChunk).get ⟨i, Nat.lt_of_succ_lt hi⟩).duration)
          - (([⟨0, 30, 0⟩, ⟨25, 27, 1⟩, ⟨50, 2, 2⟩] :
              List AudioChunk).get ⟨i + 1, hi⟩).start_time
          = min 5 (52 - (([⟨0, 30, 0⟩, ⟨25, 27, 1⟩, ⟨50, 2, 2⟩] :
              List AudioChunk).get ⟨i + 1, hi⟩).start_time) ∧
        ((([⟨0, 30, 0⟩, ⟨25, 27, 1⟩, ⟨50, 2, 2⟩] :
              List AudioChunk).get ⟨i, Nat.lt_of_succ_lt hi⟩).start_time
            + 30 ≤ 52 →
          ((([⟨0, 30, 0⟩, ⟨25, 27, 1⟩, ⟨50, 2, 2⟩] :
                List AudioChunk).get ⟨i, Nat.lt_of_succ_lt hi⟩).start_time
              + (([⟨0, 30, 0⟩, ⟨25, 27, 1⟩, ⟨50, 2, 2⟩] :
                List AudioChunk).get ⟨i, Nat.lt_of_succ_lt hi⟩).duration)
            - (([⟨0, 30, 0⟩, ⟨25, 27, 1⟩, ⟨50, 2, 2⟩] :
                List AudioChunk).get ⟨i + 1, hi⟩).start_time = 5) ∧
        ((0 : Int) < 5 →
          (([⟨0, 30, 0⟩, ⟨25, 27, 1⟩, ⟨50, 2, 2⟩] :
              List AudioChunk).get ⟨i + 1, hi⟩).start_time
            < (([⟨0, 30, 0⟩, ⟨25, 27, 1⟩, ⟨50, 2, 2⟩] :
                List AudioChunk).get ⟨i, Nat.lt_of_succ_lt hi⟩).start_time
              + (([⟨0, 30, 0⟩, ⟨25, 27, 1⟩, ⟨50, 2, 2⟩] :
                List AudioChunk).get ⟨i, Nat.lt_of_succ_lt hi⟩).duration))) :=
  ⟨by norm_num, by decide,
    segment_overlap_spec 52 30 5 (by norm_num) 10
      [⟨0, 30, 0⟩, ⟨25, 27, 1⟩, ⟨50, 2, 2⟩] (by decide)⟩

end StreamScribe
